import Mathlib

/-!
# Verification of the poker equity engine (`poker_app.py`)

A shallow embedding of the card-input cleaner, the score-to-label mapping
and the Monte-Carlo equity simulator `calculate_equity`, together with
theorems settling the specification claims about them.

Modelling choices:
* A card is a (rank, suit) pair of naturals; the external card library
  (`treys`) is not part of the repository, so its card parser is modelled
  from the spec's card-identifier format and its 5-to-7 hand evaluator is
  kept abstract. Two evaluator models are used: a total one (`Ev`, an
  arbitrary function from hero cards and board to an integer score, lower
  = stronger) for the claims in which every evaluation is on a well-formed
  5-to-7-card input, and an option-valued one (`EvO`, with `none` an
  exception raised inside the evaluator and escaping the call, since the
  trial loop sits outside the `try`/`except`) for the claims that turn on
  evaluator failure — oversized inputs or duplicated cards.
* Randomness is passed explicitly: each trial receives the order of its
  freshly shuffled deck as a list of cards, so `calculate_equity` takes a
  list of per-trial deck orders whose length is the number of trials.
* Python strings are embedded as `List Char`; Python floats as `ℚ`.
-/

set_option autoImplicit false

namespace PokerApp

/-- A playing card: rank 0–12 (deuce through ace) and suit 0–3. -/
structure PCard where
  rank : Nat
  suit : Nat
  deriving DecidableEq, Repr

/-- The abstract 5-to-7 hand evaluator: takes hole cards and a board,
returns an integer score, lower = stronger (the `treys` evaluator is an
external library, so theorems quantify over it). -/
abbrev Ev := List PCard → List PCard → Nat

/-! ## Card-input cleaning (`clean_card_input`, poker_app.py lines 6–18) -/

/-- Whitespace characters removed by Python's `str.strip()`. -/
def isSpaceChar (c : Char) : Bool :=
  c = ' ' || c = '\t' || c = '\n' || c = '\r'

/-- Python `str.strip()`: drop leading and trailing whitespace. -/
def pyStrip (s : List Char) : List Char :=
  ((s.dropWhile isSpaceChar).reverse.dropWhile isSpaceChar).reverse

/-- Python `str.replace(" ", "")`: remove every space. -/
def removeSpaces (s : List Char) : List Char :=
  s.filter (fun c => c ≠ ' ')

/-- Python `str.replace("10", "T")`: leftmost non-overlapping replacement. -/
def replaceTen : List Char → List Char
  | '1' :: '0' :: rest => 'T' :: replaceTen rest
  | c :: rest => c :: replaceTen rest
  | [] => []

/-- `clean_card_input` (lines 6–18): strip, remove spaces, turn `10` into
`T`; when at least two characters remain, keep only the first (uppercased)
and the second (lowercased). -/
def clean_card_input (s : List Char) : List Char :=
  match replaceTen (removeSpaces (pyStrip s)) with
  | a :: b :: _ => [a.toUpper, b.toLower]
  | c => c

/-! ## Card parsing -/

/-- Rank character accepted for a card identifier (uppercase, as produced
by `clean_card_input`), mapped to rank 0–12. -/
def parseRank (c : Char) : Option Nat :=
  if c = '2' then some 0 else if c = '3' then some 1
  else if c = '4' then some 2 else if c = '5' then some 3
  else if c = '6' then some 4 else if c = '7' then some 5
  else if c = '8' then some 6 else if c = '9' then some 7
  else if c = 'T' then some 8 else if c = 'J' then some 9
  else if c = 'Q' then some 10 else if c = 'K' then some 11
  else if c = 'A' then some 12 else none

/-- Suit character (lowercase) mapped to suit 0–3. -/
def parseSuit (c : Char) : Option Nat :=
  if c = 's' then some 0 else if c = 'h' then some 1
  else if c = 'd' then some 2 else if c = 'c' then some 3
  else none

/-- Modelled from the spec: the card parser of the external card library
(`Card.new`, not in the repository). Per the spec's card-identifier format,
a token is a rank character `2`–`9`, `T`, `J`, `Q`, `K`, `A` followed by a
suit character `c`, `d`, `h`, `s`; anything else (including a token shorter
than two characters) fails, which the caller observes as an exception. -/
def cardNew : List Char → Option PCard
  | r :: s :: _ =>
    match parseRank r, parseSuit s with
    | some rk, some st => some ⟨rk, st⟩
    | _, _ => none
  | _ => none

/-- Board parsing (line 63): `[Card.new(clean_card_input(c)) for c in
board_strs if c]` — skip empty input strings, clean and parse the rest;
any parse failure aborts the whole comprehension (exception). -/
def parseBoard : List (List Char) → Option (List PCard)
  | [] => some []
  | s :: rest =>
    if s = [] then parseBoard rest
    else
      match cardNew (clean_card_input s), parseBoard rest with
      | some c, some cs => some (c :: cs)
      | _, _ => none

/-! ## Score-to-label mapping (`get_hand_label`, lines 21–31) -/

/-- `get_hand_label` (lines 21–31): chained thresholds, lower = stronger. -/
def get_hand_label (score : Nat) : String :=
  if score ≤ 10 then "Royal Flush"
  else if score ≤ 166 then "Straight Flush"
  else if score ≤ 322 then "Four of a Kind"
  else if score ≤ 1599 then "Full House"
  else if score ≤ 1609 then "Flush"
  else if score ≤ 1620 then "Straight"
  else if score ≤ 2467 then "Three of a Kind"
  else if score ≤ 3325 then "Two Pair"
  else if score ≤ 6185 then "Pair"
  else "High Card"

/-! ## Deck operations (lines 72–75) -/

/-- One step of line 75: `if c in deck.cards: deck.cards.remove(c)` —
remove the first occurrence of `c` when present, otherwise leave the deck
unchanged (no error). -/
def removeCard : List PCard → PCard → List PCard
  | [], _ => []
  | x :: xs, c => if x = c then xs else x :: removeCard xs c

/-- Lines 74–75: remove each known card from the trial deck in order. -/
def removeKnown (deck : List PCard) (cards : List PCard) : List PCard :=
  cards.foldl removeCard deck

/-- The standard 52-card deck (the content of `Deck()` before shuffling). -/
def standardDeck : List PCard :=
  (List.range 52).map (fun i => ⟨i % 13, i / 13⟩)

/-! ## Per-trial simulation (lines 71–89) -/

/-- Outcome of one trial: did the hero strictly win, did the hero tie. -/
structure TrialResult where
  win : Bool
  tie : Bool
  deriving DecidableEq, Repr

/-- Lines 78–83: `cards_to_draw = 5 - len(board_cards)`; when positive,
complete the board from the deck remainder, otherwise keep the known board
as is. -/
def trialBoard (board deckRest : List PCard) : List PCard :=
  let cards_to_draw := 5 - board.length
  if cards_to_draw > 0 then board ++ deckRest.take cards_to_draw else board

/-- The trial deck after removing the known cards (lines 72–75). -/
def trialDeck (hero board deckOrder : List PCard) : List PCard :=
  removeKnown deckOrder (hero ++ board)

/-- One loop iteration (lines 71–89): build the trial deck, draw the
single opponent hand `deck.draw(2)`, complete the board, score both hands
and record win/tie. -/
def runTrial (ev : Ev) (hero board deckOrder : List PCard) : TrialResult :=
  let deck := trialDeck hero board deckOrder
  let opp_hand := deck.take 2
  let full_board := trialBoard board (deck.drop 2)
  let h_score := ev hero full_board
  let opp_score := ev opp_hand full_board
  ⟨decide (h_score < opp_score), decide (h_score = opp_score)⟩

/-- All the cards dealt from the deck within one trial: the 2 opponent
cards followed by the board-completion draw. -/
def trialDealt (hero board deckOrder : List PCard) : List PCard :=
  (trialDeck hero board deckOrder).take (2 + (5 - board.length))

/-- The accumulation loop (lines 71–89): fold the `(wins, ties)` pair over
the per-trial deck orders, incrementing `wins` on a strict win and `ties`
on an exact tie, as the `if`/`elif` at lines 88–89. -/
def simLoop (ev : Ev) (hero board : List PCard) :
    List (List PCard) → Nat × Nat → Nat × Nat
  | [], wt => wt
  | d :: ds, (w, t) =>
    let r := runTrial ev hero board d
    simLoop ev hero board ds
      (if r.win then (w + 1, t) else if r.tie then (w, t + 1) else (w, t))

/-- The per-trial results in order (one per supplied deck). -/
def trialResults (ev : Ev) (hero board : List PCard)
    (decks : List (List PCard)) : List TrialResult :=
  decks.map (runTrial ev hero board)

/-! ## Current-hand label and aggregation (lines 67–69 and 91) -/

/-- Lines 67–69: the current-strength label, computed from the hero's hole
cards and the known board only; `"N/A"` when fewer than 5 cards are known,
otherwise `get_hand_label` of the evaluator's score on the hero's cards and
the first 5 board cards (`board_cards[:5]`). -/
def currentStrength (ev : Ev) (hero board : List PCard) : String :=
  if (hero ++ board).length ≥ 5 then
    get_hand_label (ev hero (board.take 5))
  else "N/A"

/-- Lines 67–91 after successful validation: compute the label, run the
simulation loop and aggregate `(wins + ties * 0.5) / sims * 100`. -/
def calcResult (ev : Ev) (hero board : List PCard)
    (decks : List (List PCard)) : ℚ × String :=
  let current_strength := currentStrength ev hero board
  let wt := simLoop ev hero board decks (0, 0)
  (((wt.1 : ℚ) + (wt.2 : ℚ) * (1 / 2)) / (decks.length : ℚ) * 100,
    current_strength)

/-- `calculate_equity` (lines 50–91). The two hero input strings and the
board strings are cleaned and parsed; an empty cleaned hero string returns
the `(0, "Waiting for cards...")` sentinel (line 58), any parse failure
returns the `(0, "Invalid Cards")` sentinel (lines 64–65), and otherwise
the simulation runs, one trial per supplied deck order. -/
def calculate_equity (ev : Ev) (h1 h2 : List Char)
    (board_strs : List (List Char)) (decks : List (List PCard)) :
    ℚ × String :=
  if clean_card_input h1 = [] ∨ clean_card_input h2 = [] then
    (0, "Waiting for cards...")
  else
    match cardNew (clean_card_input h1), cardNew (clean_card_input h2),
        parseBoard board_strs with
    | some hc1, some hc2, some board_cards =>
      calcResult ev [hc1, hc2] board_cards decks
    | _, _, _ => (0, "Invalid Cards")

/-! ## Spec-side trial (refinement comparison for the opponent count) -/

/-- Minimum of a list of scores, `none` on the empty list. -/
def minScore : List Nat → Option Nat
  | [] => none
  | x :: xs =>
    match minScore xs with
    | none => some x
    | some m => some (min x m)

/-- Modelled from the spec: the per-trial algorithm of `simulateEquity`
for `numOpponents` opponents (the source's `calculate_equity` has no
opponent-count parameter). Per spec steps 2–6: deal 2 cards to each of the
`n` opponents without replacement from the trial deck, complete the board
from the remainder, and compare the hero's score with
`bestOpponentScore = min(all opponent scores)`. -/
def specTrial (ev : Ev) (n : Nat) (hero board deckOrder : List PCard) :
    TrialResult :=
  let deck := trialDeck hero board deckOrder
  let opps := (List.range n).map (fun i => (deck.drop (2 * i)).take 2)
  let full_board := board ++ (deck.drop (2 * n)).take (5 - board.length)
  let h_score := ev hero full_board
  match minScore (opps.map (fun o => ev o full_board)) with
  | some best => ⟨decide (h_score < best), decide (h_score = best)⟩
  | none => ⟨false, false⟩

/-! ## Fallible-evaluator model (lines 50–91 with evaluator exceptions)

The abstract total evaluator `Ev` is adequate for the claims in which the
evaluator always receives well-formed 5-to-7-card inputs. For the claims
that turn on evaluator failure (a duplicated card in the evaluated cards,
or more than 7 cards in total), the evaluator is modelled as
option-valued: `none` is an exception raised inside the external
evaluator. The `try`/`except` of lines 55–64 covers only the parsing, so
an evaluator exception at line 69 or lines 85–86 escapes
`calculate_equity` uncaught; the whole call is therefore option-valued,
with `none` meaning the program crashes instead of returning. -/

/-- An option-valued evaluator: `none` models an exception raised by the
external 5-to-7 evaluator on an input outside its domain. -/
abbrev EvO := List PCard → List PCard → Option Nat

/-- Modelled from the spec: the external hand evaluator has contract
`evaluate(cards: 5 to 7 Cards) → Score` — it is defined for 5 to 7 cards
in total and fails on any other size (the program observes this as an
uncaught exception); `sc` is an arbitrary score function on the valid
domain. The spec models exactly 52 distinct cards, so its evaluator
behaviour on inputs containing a duplicated card is not specified;
`evalSized` is one admissible evaluator, and theorems that must cover the
unspecified behaviour quantify over all of `EvO` instead. -/
def evalSized (sc : List PCard → List PCard → Nat) : EvO :=
  fun hand board =>
    if 5 ≤ hand.length + board.length ∧ hand.length + board.length ≤ 7 then
      some (sc hand board)
    else none

/-- One loop iteration (lines 71–89) under the fallible evaluator: if
either the hero or the opponent evaluation at lines 85–86 raises, the
trial — and with it the whole call — fails. -/
def runTrialO (ev : EvO) (hero board deckOrder : List PCard) :
    Option TrialResult :=
  let deck := trialDeck hero board deckOrder
  let opp_hand := deck.take 2
  let full_board := trialBoard board (deck.drop 2)
  match ev hero full_board, ev opp_hand full_board with
  | some h_score, some opp_score =>
    some ⟨decide (h_score < opp_score), decide (h_score = opp_score)⟩
  | _, _ => none

/-- The accumulation loop (lines 71–89) under the fallible evaluator: a
failing trial aborts the loop (the exception propagates). -/
def simLoopO (ev : EvO) (hero board : List PCard) :
    List (List PCard) → Nat × Nat → Option (Nat × Nat)
  | [], wt => some wt
  | d :: ds, (w, t) =>
    match runTrialO ev hero board d with
    | none => none
    | some r =>
      simLoopO ev hero board ds
        (if r.win then (w + 1, t) else if r.tie then (w, t + 1) else (w, t))

/-- Lines 67–69 under the fallible evaluator: the label evaluation at
line 69 (on hero plus `board_cards[:5]`) can itself raise. -/
def currentStrengthO (ev : EvO) (hero board : List PCard) : Option String :=
  if (hero ++ board).length ≥ 5 then
    (ev hero (board.take 5)).map get_hand_label
  else some "N/A"

/-- Lines 67–91 after successful validation, under the fallible
evaluator: compute the label, run the loop, aggregate; `none` when any
evaluator call raised. -/
def calcResultO (ev : EvO) (hero board : List PCard)
    (decks : List (List PCard)) : Option (ℚ × String) :=
  match currentStrengthO ev hero board with
  | none => none
  | some current_strength =>
    match simLoopO ev hero board decks (0, 0) with
    | none => none
    | some wt =>
      some (((wt.1 : ℚ) + (wt.2 : ℚ) * (1 / 2)) / (decks.length : ℚ) * 100,
        current_strength)

/-- `calculate_equity` (lines 50–91) under the fallible evaluator:
`some` is a value the program returns, `none` an uncaught evaluator
exception escaping the call. -/
def calculate_equityO (ev : EvO) (h1 h2 : List Char)
    (board_strs : List (List Char)) (decks : List (List PCard)) :
    Option (ℚ × String) :=
  if clean_card_input h1 = [] ∨ clean_card_input h2 = [] then
    some (0, "Waiting for cards...")
  else
    match cardNew (clean_card_input h1), cardNew (clean_card_input h2),
        parseBoard board_strs with
    | some hc1, some hc2, some board_cards =>
      calcResultO ev [hc1, hc2] board_cards decks
    | _, _, _ => some (0, "Invalid Cards")

/-! ## Concrete instances used in counterexamples and witnesses -/

/-- A constant evaluator: every hand scores 1 (every trial is a tie). -/
def evOne : Ev := fun _ _ => 1

/-- Hero hole cards for the opponent-count counterexample. -/
def heroC2 : List PCard := [⟨12, 0⟩, ⟨11, 0⟩]

/-- A full 5-card known board for the opponent-count counterexample. -/
def boardC2 : List PCard := [⟨0, 1⟩, ⟨1, 1⟩, ⟨2, 1⟩, ⟨3, 1⟩, ⟨4, 1⟩]

/-- A trial-deck order for the opponent-count counterexample (disjoint
from `heroC2` and `boardC2`). -/
def deckC2 : List PCard := [⟨5, 2⟩, ⟨6, 2⟩, ⟨7, 2⟩, ⟨8, 2⟩]

/-- An evaluator that scores the first dealt opponent hand 9, the second
dealt opponent hand 1, and anything else (the hero in particular) 5. -/
def evC2 : Ev := fun hand _ =>
  if hand = [⟨5, 2⟩, ⟨6, 2⟩] then 9
  else if hand = [⟨7, 2⟩, ⟨8, 2⟩] then 1
  else 5

/-! ## Theorems -/

/-- The board-completion expression without the `if`: appending a take of
length `5 - |board|` is also correct when the board already has 5 or more
cards, because the take is then empty. -/
theorem trialBoard_eq_append (board deckRest : List PCard) :
    trialBoard board deckRest = board ++ deckRest.take (5 - board.length) := by
  unfold trialBoard
  by_cases h : 5 - board.length > 0
  · rw [if_pos h]
  · rw [if_neg h]
    have h0 : 5 - board.length = 0 := by omega
    rw [h0]
    simp

set_option maxHeartbeats 1000000 in
/-- C5: for every integer score, `get_hand_label` follows the threshold
table exactly: ≤10 Royal Flush, ≤166 Straight Flush, ≤322 Four of a Kind,
≤1599 Full House, ≤1609 Flush, ≤1620 Straight, ≤2467 Three of a Kind,
≤3325 Two Pair, ≤6185 Pair, otherwise High Card, each threshold applying
only above the previous one. -/
theorem C5_get_hand_label_thresholds (s : Nat) :
    (s ≤ 10 → get_hand_label s = "Royal Flush") ∧
    (10 < s → s ≤ 166 → get_hand_label s = "Straight Flush") ∧
    (166 < s → s ≤ 322 → get_hand_label s = "Four of a Kind") ∧
    (322 < s → s ≤ 1599 → get_hand_label s = "Full House") ∧
    (1599 < s → s ≤ 1609 → get_hand_label s = "Flush") ∧
    (1609 < s → s ≤ 1620 → get_hand_label s = "Straight") ∧
    (1620 < s → s ≤ 2467 → get_hand_label s = "Three of a Kind") ∧
    (2467 < s → s ≤ 3325 → get_hand_label s = "Two Pair") ∧
    (3325 < s → s ≤ 6185 → get_hand_label s = "Pair") ∧
    (6185 < s → get_hand_label s = "High Card") := by
  unfold get_hand_label
  refine ⟨?_, ?_, ?_, ?_, ?_, ?_, ?_, ?_, ?_, ?_⟩ <;> intros <;>
    split_ifs <;> first | rfl | omega

/-- Witness for C5 at score 300 (a Four-of-a-Kind score). -/
theorem C5_witness : 166 < 300 ∧ 300 ≤ 322 ∧
    get_hand_label 300 = "Four of a Kind" :=
  ⟨by decide, by decide,
    (C5_get_hand_label_thresholds 300).2.2.1 (by decide) (by decide)⟩

/-- C10: if either hero hole-card string cleans to the empty string, the
simulator returns `(0, "Waiting for cards...")` — for every deck list, so
no trial runs — and this sentinel is distinct from the malformed-card
sentinel `(0, "Invalid Cards")`. -/
theorem C10_empty_hero_waiting (ev : Ev) (h1 h2 : List Char)
    (board_strs : List (List Char)) (decks : List (List PCard))
    (h : clean_card_input h1 = [] ∨ clean_card_input h2 = []) :
    calculate_equity ev h1 h2 board_strs decks = (0, "Waiting for cards...") ∧
    calculate_equity ev h1 h2 board_strs decks ≠ (0, "Invalid Cards") := by
  unfold calculate_equity
  rw [if_pos h]
  exact ⟨rfl, by simp⟩

/-- Witness for C10: a whitespace-only first hole card. -/
theorem C10_witness :
    clean_card_input [' '] = [] ∧
    calculate_equity (fun _ _ => 0) [' '] ['A', 'h'] [] [] =
      (0, "Waiting for cards...") :=
  ⟨by decide, (C10_empty_hero_waiting _ _ _ _ _ (Or.inl (by decide))).1⟩

/-- C7: any malformed card token (hero or board) makes the simulator fail
fast: for every deck list it returns the `(0, "Invalid Cards")` sentinel,
so the answer never depends on any trial. -/
theorem C7_malformed_invalid (ev : Ev) (h1 h2 : List Char)
    (board_strs : List (List Char)) (decks : List (List PCard))
    (hne1 : clean_card_input h1 ≠ []) (hne2 : clean_card_input h2 ≠ [])
    (hbad : cardNew (clean_card_input h1) = none ∨
      cardNew (clean_card_input h2) = none ∨
      parseBoard board_strs = none) :
    calculate_equity ev h1 h2 board_strs decks = (0, "Invalid Cards") := by
  unfold calculate_equity
  rw [if_neg (fun hc => hc.elim hne1 hne2)]
  rcases hceq1 : cardNew (clean_card_input h1) with _ | c1 <;>
    rcases hceq2 : cardNew (clean_card_input h2) with _ | c2 <;>
    rcases hbeq : parseBoard board_strs with _ | bc <;>
    first | rfl | simp_all

/-- Witness for C7: hero card `Xx` does not parse, and the call returns
the invalid-input sentinel. -/
theorem C7_witness :
    calculate_equity (fun _ _ => 0) ['X', 'x'] ['A', 'h'] [] [] =
      (0, "Invalid Cards") :=
  C7_malformed_invalid _ _ _ _ _ (by decide) (by decide) (Or.inl (by decide))

/-- When both hero tokens and the board parse, `calculate_equity` reaches
the simulation stage: it equals `calcResult` on the parsed cards. -/
theorem calculate_equity_parsed (ev : Ev) (h1 h2 : List Char)
    (board_strs : List (List Char)) (decks : List (List PCard))
    (hc1 hc2 : PCard) (board_cards : List PCard)
    (hp1 : cardNew (clean_card_input h1) = some hc1)
    (hp2 : cardNew (clean_card_input h2) = some hc2)
    (hpb : parseBoard board_strs = some board_cards) :
    calculate_equity ev h1 h2 board_strs decks =
      calcResult ev [hc1, hc2] board_cards decks := by
  have hne1 : clean_card_input h1 ≠ [] := by
    intro he; rw [he] at hp1; simp [cardNew] at hp1
  have hne2 : clean_card_input h2 ≠ [] := by
    intro he; rw [he] at hp2; simp [cardNew] at hp2
  unfold calculate_equity
  rw [if_neg (fun hc => hc.elim hne1 hne2), hp1, hp2, hpb]

/-- C4: when the inputs parse, the label of the result is the current
strength computed from the hero hole cards plus the known board only: it
does not depend on the trial decks (so it is computed once per call, never
from a simulated completion), and when hero plus known board have fewer
than 5 cards it is the sentinel `"N/A"` and does not depend on the
evaluator (the 5-to-7 evaluator is not consulted). -/
theorem C4_label_from_known_board (ev ev2 : Ev) (h1 h2 : List Char)
    (board_strs : List (List Char)) (decks decks2 : List (List PCard))
    (hc1 hc2 : PCard) (board_cards : List PCard)
    (hp1 : cardNew (clean_card_input h1) = some hc1)
    (hp2 : cardNew (clean_card_input h2) = some hc2)
    (hpb : parseBoard board_strs = some board_cards) :
    (calculate_equity ev h1 h2 board_strs decks).2 =
      currentStrength ev [hc1, hc2] board_cards ∧
    (calculate_equity ev h1 h2 board_strs decks).2 =
      (calculate_equity ev h1 h2 board_strs decks2).2 ∧
    (([hc1, hc2] ++ board_cards).length < 5 →
      (calculate_equity ev h1 h2 board_strs decks).2 = "N/A" ∧
      (calculate_equity ev h1 h2 board_strs decks).2 =
        (calculate_equity ev2 h1 h2 board_strs decks).2) := by
  rw [calculate_equity_parsed ev h1 h2 board_strs decks hc1 hc2 board_cards
      hp1 hp2 hpb,
    calculate_equity_parsed ev h1 h2 board_strs decks2 hc1 hc2 board_cards
      hp1 hp2 hpb,
    calculate_equity_parsed ev2 h1 h2 board_strs decks hc1 hc2 board_cards
      hp1 hp2 hpb]
  refine ⟨rfl, rfl, fun hlt => ?_⟩
  constructor
  · show currentStrength ev [hc1, hc2] board_cards = "N/A"
    unfold currentStrength
    rw [if_neg (by omega)]
  · show currentStrength ev [hc1, hc2] board_cards =
      currentStrength ev2 [hc1, hc2] board_cards
    unfold currentStrength
    rw [if_neg (by omega), if_neg (by omega)]

/-- Witness for C4: two parsed hole cards and an empty board give the
`"N/A"` label. -/
theorem C4_witness :
    cardNew (clean_card_input ['A', 'h']) = some ⟨12, 1⟩ ∧
    (calculate_equity evOne ['A', 'h'] ['A', 'd'] [] []).2 = "N/A" :=
  ⟨by decide,
    ((C4_label_from_known_board evOne (fun _ _ => 0) ['A', 'h'] ['A', 'd']
      [] [] [] ⟨12, 1⟩ ⟨12, 2⟩ [] (by decide) (by decide)
      (by decide)).2.2 (by decide)).1⟩

/-- C6: when the known board has at most 5 cards and the deck remainder is
large enough, the per-trial board completion draws exactly `5 - |board|`
cards (the completed board is the known board followed by that take), the
scored board has exactly 5 cards, and a 5-card known board draws nothing. -/
theorem C6_board_completion (board deckRest : List PCard)
    (hb : board.length ≤ 5) (hd : 5 - board.length ≤ deckRest.length) :
    trialBoard board deckRest = board ++ deckRest.take (5 - board.length) ∧
    (trialBoard board deckRest).length - board.length = 5 - board.length ∧
    (trialBoard board deckRest).length = 5 ∧
    (board.length = 5 → trialBoard board deckRest = board) := by
  have he := trialBoard_eq_append board deckRest
  have hlen : (trialBoard board deckRest).length = 5 := by
    rw [he, List.length_append, List.length_take]
    omega
  refine ⟨he, by omega, hlen, fun h5 => ?_⟩
  rw [he, h5]
  simp

/-- Witness for C6: a 3-card known board draws 2 of the 2 remaining deck
cards and the scored board has 5 cards. -/
theorem C6_witness :
    trialBoard [⟨0, 1⟩, ⟨1, 1⟩, ⟨2, 1⟩] [⟨5, 2⟩, ⟨6, 2⟩] =
      [⟨0, 1⟩, ⟨1, 1⟩, ⟨2, 1⟩] ++ [⟨5, 2⟩, ⟨6, 2⟩].take 2 ∧
    (trialBoard [⟨0, 1⟩, ⟨1, 1⟩, ⟨2, 1⟩] [⟨5, 2⟩, ⟨6, 2⟩]).length = 5 :=
  ⟨(C6_board_completion _ _ (by decide) (by decide)).1,
    (C6_board_completion _ _ (by decide) (by decide)).2.2.1⟩

/-- In one trial the hero cannot both strictly win and tie: the scores are
naturals, so `h < o` and `h = o` exclude each other. -/
theorem runTrial_win_tie_exclusive (ev : Ev) (hero board d : List PCard) :
    ¬((runTrial ev hero board d).win = true ∧
      (runTrial ev hero board d).tie = true) := by
  unfold runTrial
  simp only [decide_eq_true_eq]
  omega

/-- The accumulation loop counts exactly the winning trials into its first
component and the tied trials into its second. -/
theorem simLoop_eq_counts (ev : Ev) (hero board : List PCard)
    (decks : List (List PCard)) : ∀ w t : Nat,
    simLoop ev hero board decks (w, t) =
      (w + decks.countP (fun d => (runTrial ev hero board d).win),
        t + decks.countP (fun d => (runTrial ev hero board d).tie)) := by
  induction decks with
  | nil => intro w t; simp [simLoop]
  | cons d ds ih =>
    intro w t
    have hex := runTrial_win_tie_exclusive ev hero board d
    rcases hwin : (runTrial ev hero board d).win <;>
      rcases htie : (runTrial ev hero board d).tie <;>
      first
        | (simp [simLoop, hwin, htie, ih, List.countP_cons,
            Prod.mk.injEq] <;> omega)
        | exact absurd ⟨hwin, htie⟩ hex

/-- C3: when the inputs parse, the returned win probability equals
`(wins + ties * (1 / (numOpponents + 1))) / trials * 100` with the
simulator's opponent count of one: `wins` counts the trials whose hero
score is strictly smaller than the (single, hence best) opponent score and
each tied trial is credited `1 / (1 + 1) = 0.5`. -/
theorem C3_win_probability_formula (ev : Ev) (h1 h2 : List Char)
    (board_strs : List (List Char)) (decks : List (List PCard))
    (hc1 hc2 : PCard) (board_cards : List PCard)
    (hp1 : cardNew (clean_card_input h1) = some hc1)
    (hp2 : cardNew (clean_card_input h2) = some hc2)
    (hpb : parseBoard board_strs = some board_cards) :
    (calculate_equity ev h1 h2 board_strs decks).1 =
      (((trialResults ev [hc1, hc2] board_cards decks).countP
          (fun r => r.win) : ℚ) +
        ((trialResults ev [hc1, hc2] board_cards decks).countP
          (fun r => r.tie) : ℚ) * (1 / ((1 : ℚ) + 1))) /
        (decks.length : ℚ) * 100 := by
  rw [calculate_equity_parsed ev h1 h2 board_strs decks hc1 hc2 board_cards
    hp1 hp2 hpb]
  unfold calcResult
  rw [simLoop_eq_counts ev [hc1, hc2] board_cards decks 0 0]
  simp only [trialResults, List.countP_map, Function.comp_def,
    Nat.zero_add]
  norm_num

/-- Witness for C3: one trial with a constant evaluator is a pure tie and
the formula applies. -/
theorem C3_witness :
    (calculate_equity evOne ['A', 'h'] ['A', 'd'] [] [standardDeck]).1 =
      (((trialResults evOne [⟨12, 1⟩, ⟨12, 2⟩] [] [standardDeck]).countP
          (fun r => r.win) : ℚ) +
        ((trialResults evOne [⟨12, 1⟩, ⟨12, 2⟩] [] [standardDeck]).countP
          (fun r => r.tie) : ℚ) * (1 / ((1 : ℚ) + 1))) /
        (([standardDeck] : List (List PCard)).length : ℚ) * 100 :=
  C3_win_probability_formula evOne ['A', 'h'] ['A', 'd'] [] [standardDeck]
    ⟨12, 1⟩ ⟨12, 2⟩ [] (by decide) (by decide) (by decide)

/-- C2 counterexample: with a 5-card known board, a deck whose first four
cards form two would-be opponent hands, and an evaluator scoring the hero
5, the first dealt hand 9 and the second dealt hand 1, the code wins the
trial (it compares the hero only against the one hand it deals) while the
claimed procedure at numOpponents = 2 loses it (the best of the two
opponent scores is 1 < 5), so the trial does not implement the claimed
numOpponents-opponent procedure. -/
theorem C2_counterexample :
    (runTrial evC2 heroC2 boardC2 deckC2).win = true ∧
    (specTrial evC2 2 heroC2 boardC2 deckC2).win = false ∧
    runTrial evC2 heroC2 boardC2 deckC2 ≠
      specTrial evC2 2 heroC2 boardC2 deckC2 :=
  ⟨by decide, by decide, by decide⟩

/-- C2 amended: the simulator has no opponent-count input; every trial
deals 2 hole cards to exactly one opponent, without replacement from the
trial deck, and decides win or tie by comparing the hero score against
that single opponent score — the claimed procedure holds exactly at
numOpponents = 1, where the best opponent score is the one opponent
score. -/
theorem C2_amended_single_opponent (ev : Ev)
    (hero board deckOrder : List PCard) :
    runTrial ev hero board deckOrder = specTrial ev 1 hero board deckOrder := by
  simp [runTrial, specTrial, trialBoard_eq_append, List.range_succ,
    minScore]

/-- Removing a card that is not in the deck leaves the deck unchanged:
the guard at line 75 turns the removal into a silent no-op. -/
theorem removeCard_not_mem (deck : List PCard) (c : PCard) (h : c ∉ deck) :
    removeCard deck c = deck := by
  induction deck with
  | nil => rfl
  | cons x xs ih =>
    have hx : ¬(x = c) := fun he => by
      rw [he] at h; exact h (List.mem_cons_self c xs)
    unfold removeCard
    rw [if_neg hx, ih (fun hm => h (List.mem_cons_of_mem x hm))]

/-- When both hero tokens and the board parse, `calculate_equityO`
reaches the simulation stage: it equals `calcResultO` on the parsed
cards, for every option-valued evaluator. -/
theorem calculate_equityO_parsed (ev : EvO) (h1 h2 : List Char)
    (board_strs : List (List Char)) (decks : List (List PCard))
    (hc1 hc2 : PCard) (board_cards : List PCard)
    (hp1 : cardNew (clean_card_input h1) = some hc1)
    (hp2 : cardNew (clean_card_input h2) = some hc2)
    (hpb : parseBoard board_strs = some board_cards) :
    calculate_equityO ev h1 h2 board_strs decks =
      calcResultO ev [hc1, hc2] board_cards decks := by
  have hne1 : clean_card_input h1 ≠ [] := by
    intro he; rw [he] at hp1; simp [cardNew] at hp1
  have hne2 : clean_card_input h2 ≠ [] := by
    intro he; rw [he] at hp2; simp [cardNew] at hp2
  unfold calculate_equityO
  rw [if_neg (fun hc => hc.elim hne1 hne2), hp1, hp2, hpb]

/-- An evaluator that never raises makes every trial succeed. -/
theorem runTrialO_total (ev : EvO) (hero board d : List PCard)
    (h : ∀ hand bd, ev hand bd ≠ none) :
    runTrialO ev hero board d ≠ none := by
  simp only [runTrialO]
  rcases hh : ev hero (trialBoard board
      ((trialDeck hero board d).drop 2)) with _ | hs
  · exact absurd hh (h _ _)
  · rcases ho : ev ((trialDeck hero board d).take 2) (trialBoard board
        ((trialDeck hero board d).drop 2)) with _ | os
    · exact absurd ho (h _ _)
    · simp

/-- An evaluator that never raises makes the whole loop succeed. -/
theorem simLoopO_total (ev : EvO) (hero board : List PCard)
    (h : ∀ hand bd, ev hand bd ≠ none) :
    ∀ (decks : List (List PCard)) (wt : Nat × Nat),
    simLoopO ev hero board decks wt ≠ none := by
  intro decks
  induction decks with
  | nil => intro wt; simp [simLoopO]
  | cons d ds ih =>
    intro wt
    obtain ⟨w, t⟩ := wt
    simp only [simLoopO]
    rcases hr : runTrialO ev hero board d with _ | r
    · exact absurd hr (runTrialO_total ev hero board d h)
    · exact ih _

/-- An evaluator that never raises makes the label computation succeed. -/
theorem currentStrengthO_total (ev : EvO) (hero board : List PCard)
    (h : ∀ hand bd, ev hand bd ≠ none) :
    currentStrengthO ev hero board ≠ none := by
  unfold currentStrengthO
  split_ifs
  · rcases he : ev hero (board.take 5) with _ | s
    · exact absurd he (h hero (board.take 5))
    · simp
  · simp

/-- An evaluator that never raises makes the whole post-validation stage
succeed: the only failure mode of the simulation stage is an evaluator
exception. -/
theorem calcResultO_total (ev : EvO) (hero board : List PCard)
    (decks : List (List PCard)) (h : ∀ hand bd, ev hand bd ≠ none) :
    calcResultO ev hero board decks ≠ none := by
  unfold calcResultO
  rcases hcs : currentStrengthO ev hero board with _ | cs
  · exact absurd hcs (currentStrengthO_total ev hero board h)
  · rcases hsl : simLoopO ev hero board decks (0, 0) with _ | wt
    · exact absurd hsl (simLoopO_total ev hero board h decks (0, 0))
    · simp

/-- C1 counterexample: with hero `Ah Ad` and board `Ah Kh Kd` — the ace
of hearts appearing both as a hero hole card and as a board card — no
duplicate-card error is raised before any trial: with an evaluator
respecting the spec's 5-to-7-card domain and a single trial whose deck
order completes the board with two spades (a completion on which the real
evaluator is not poisoned by the duplicate, since no five-heart
combination arises), the call deals the opponent the first two deck cards
and returns a completed result, not an error of any kind. -/
theorem C1_counterexample :
    calculate_equityO (evalSized (fun _ _ => 1)) ['A', 'h'] ['A', 'd']
      [['A', 'h'], ['K', 'h'], ['K', 'd']] [standardDeck] =
      some (50, "Royal Flush") ∧
    calculate_equityO (evalSized (fun _ _ => 1)) ['A', 'h'] ['A', 'd']
      [['A', 'h'], ['K', 'h'], ['K', 'd']] [standardDeck] ≠ none ∧
    calculate_equityO (evalSized (fun _ _ => 1)) ['A', 'h'] ['A', 'd']
      [['A', 'h'], ['K', 'h'], ['K', 'd']] [standardDeck] ≠
      some (0, "Invalid Cards") ∧
    (trialDeck [⟨12, 1⟩, ⟨12, 2⟩] [⟨12, 1⟩, ⟨11, 1⟩, ⟨11, 2⟩]
      standardDeck).take 2 = [⟨0, 0⟩, ⟨1, 0⟩] := by
  have hmain : calculate_equityO (evalSized (fun _ _ => 1)) ['A', 'h']
      ['A', 'd'] [['A', 'h'], ['K', 'h'], ['K', 'd']] [standardDeck] =
      some (50, "Royal Flush") := by
    rw [calculate_equityO_parsed (evalSized (fun _ _ => 1)) ['A', 'h']
      ['A', 'd'] [['A', 'h'], ['K', 'h'], ['K', 'd']] [standardDeck]
      ⟨12, 1⟩ ⟨12, 2⟩ [⟨12, 1⟩, ⟨11, 1⟩, ⟨11, 2⟩]
      (by decide) (by decide) (by decide)]
    have hcs : currentStrengthO (evalSized (fun _ _ => 1))
        [⟨12, 1⟩, ⟨12, 2⟩] [⟨12, 1⟩, ⟨11, 1⟩, ⟨11, 2⟩] =
        some "Royal Flush" := by decide
    have hwt : simLoopO (evalSized (fun _ _ => 1)) [⟨12, 1⟩, ⟨12, 2⟩]
        [⟨12, 1⟩, ⟨11, 1⟩, ⟨11, 2⟩] [standardDeck] (0, 0) =
        some (0, 1) := by decide
    unfold calcResultO
    rw [hcs, hwt]
    norm_num
  refine ⟨hmain, by rw [hmain]; simp, by rw [hmain]; norm_num, by decide⟩

/-- C1 amended: a hero hole card equal to a known board card is not
rejected and raises no duplicate-card error at any point: validation
passes and the call reaches the simulation stage (it equals `calcResultO`
on the parsed cards, with the duplicated card still present in the hero
and board lists), the per-trial removal of a card that is no longer in
the deck is a silent no-op rather than an error, and the only remaining
failure mode is the external evaluator itself — an evaluator that never
raises makes the call return normally, so any crash on duplicated inputs
comes from the evaluator mid-trial, never from a duplicate check. -/
theorem C1_amended_duplicate_ignored (ev : EvO) (h1 h2 : List Char)
    (board_strs : List (List Char)) (decks : List (List PCard))
    (hc1 hc2 : PCard) (board_cards : List PCard)
    (hp1 : cardNew (clean_card_input h1) = some hc1)
    (hp2 : cardNew (clean_card_input h2) = some hc2)
    (hpb : parseBoard board_strs = some board_cards)
    (_hdup : hc1 ∈ board_cards ∨ hc2 ∈ board_cards ∨ hc1 = hc2) :
    calculate_equityO ev h1 h2 board_strs decks =
      calcResultO ev [hc1, hc2] board_cards decks ∧
    (∀ (deck : List PCard) (c : PCard), c ∉ deck →
      removeCard deck c = deck) ∧
    ((∀ hand bd, ev hand bd ≠ none) →
      calculate_equityO ev h1 h2 board_strs decks ≠ none) := by
  have hstep := calculate_equityO_parsed ev h1 h2 board_strs decks
    hc1 hc2 board_cards hp1 hp2 hpb
  refine ⟨hstep, fun deck c hc => removeCard_not_mem deck c hc,
    fun htot => ?_⟩
  rw [hstep]
  exact calcResultO_total ev [hc1, hc2] board_cards decks htot

/-- Witness for the amended C1 at the duplicated input `Ah Ad / Ah Kh Kd`:
the call reaches the simulation stage, and with a never-raising evaluator
it does not crash. -/
theorem C1_amended_witness :
    calculate_equityO (fun _ _ => some 1) ['A', 'h'] ['A', 'd']
      [['A', 'h'], ['K', 'h'], ['K', 'd']] [standardDeck] =
      calcResultO (fun _ _ => some 1) [⟨12, 1⟩, ⟨12, 2⟩]
        [⟨12, 1⟩, ⟨11, 1⟩, ⟨11, 2⟩] [standardDeck] ∧
    calculate_equityO (fun _ _ => some 1) ['A', 'h'] ['A', 'd']
      [['A', 'h'], ['K', 'h'], ['K', 'd']] [standardDeck] ≠ none :=
  ⟨(C1_amended_duplicate_ignored (fun _ _ => some 1) ['A', 'h'] ['A', 'd']
      [['A', 'h'], ['K', 'h'], ['K', 'd']] [standardDeck]
      ⟨12, 1⟩ ⟨12, 2⟩ [⟨12, 1⟩, ⟨11, 1⟩, ⟨11, 2⟩]
      (by decide) (by decide) (by decide) (Or.inl (by decide))).1,
    (C1_amended_duplicate_ignored (fun _ _ => some 1) ['A', 'h'] ['A', 'd']
      [['A', 'h'], ['K', 'h'], ['K', 'd']] [standardDeck]
      ⟨12, 1⟩ ⟨12, 2⟩ [⟨12, 1⟩, ⟨11, 1⟩, ⟨11, 2⟩]
      (by decide) (by decide) (by decide) (Or.inl (by decide))).2.2
      (fun hand bd => by simp)⟩

/-- C8 counterexample: a 6-card known board is not rejected with an input
error: with an evaluator respecting the spec's 5-to-7-card domain and one
trial, the call passes validation, computes the label from the first 5
board cards (7 cards, in domain), enters the trial loop — the opponent is
dealt the first two deck cards — and then crashes when the hero is scored
on 8 cards inside the first trial (`none`, an uncaught evaluator
exception), which is not any returned input-error value. -/
theorem C8_counterexample :
    calculate_equityO (evalSized (fun _ _ => 1)) ['A', 's'] ['A', 'd']
      [['2', 'h'], ['3', 'h'], ['4', 'h'], ['5', 'h'], ['6', 'h'],
        ['7', 'h']] [standardDeck] = none ∧
    calculate_equityO (evalSized (fun _ _ => 1)) ['A', 's'] ['A', 'd']
      [['2', 'h'], ['3', 'h'], ['4', 'h'], ['5', 'h'], ['6', 'h'],
        ['7', 'h']] [standardDeck] ≠ some (0, "Invalid Cards") ∧
    currentStrengthO (evalSized (fun _ _ => 1)) [⟨12, 0⟩, ⟨12, 2⟩]
      [⟨0, 1⟩, ⟨1, 1⟩, ⟨2, 1⟩, ⟨3, 1⟩, ⟨4, 1⟩, ⟨5, 1⟩] =
      some "Royal Flush" ∧
    runTrialO (evalSized (fun _ _ => 1)) [⟨12, 0⟩, ⟨12, 2⟩]
      [⟨0, 1⟩, ⟨1, 1⟩, ⟨2, 1⟩, ⟨3, 1⟩, ⟨4, 1⟩, ⟨5, 1⟩] standardDeck =
      none ∧
    (trialDeck [⟨12, 0⟩, ⟨12, 2⟩]
      [⟨0, 1⟩, ⟨1, 1⟩, ⟨2, 1⟩, ⟨3, 1⟩, ⟨4, 1⟩, ⟨5, 1⟩]
      standardDeck).take 2 = [⟨0, 0⟩, ⟨1, 0⟩] :=
  ⟨by decide, by decide, by decide, by decide, by decide⟩

/-- C8 amended: the simulator performs no board-size validation and
raises no input error for an over-full board: with more than 5 known
board cards the call passes validation, the label is still computed (from
the first 5 board cards, a 7-card in-domain evaluation), every trial
draws no additional board card (the completed board is the oversized
known board unchanged), and the call then fails inside the first trial
when the hero is scored on more than 7 cards — an evaluator exception
escaping the call, not a distinguishable input error raised before
running a trial. -/
theorem C8_amended_no_board_check (sc : List PCard → List PCard → Nat)
    (h1 h2 : List Char) (board_strs : List (List Char))
    (d : List PCard) (ds : List (List PCard))
    (hc1 hc2 : PCard) (board_cards : List PCard)
    (hp1 : cardNew (clean_card_input h1) = some hc1)
    (hp2 : cardNew (clean_card_input h2) = some hc2)
    (hpb : parseBoard board_strs = some board_cards)
    (hover : 5 < board_cards.length) :
    currentStrengthO (evalSized sc) [hc1, hc2] board_cards =
      some (get_hand_label (sc [hc1, hc2] (board_cards.take 5))) ∧
    (∀ deckRest : List PCard,
      trialBoard board_cards deckRest = board_cards) ∧
    runTrialO (evalSized sc) [hc1, hc2] board_cards d = none ∧
    calculate_equityO (evalSized sc) h1 h2 board_strs (d :: ds) =
      none := by
  have htb : ∀ deckRest : List PCard,
      trialBoard board_cards deckRest = board_cards := by
    intro deckRest
    simp only [trialBoard]
    rw [if_neg (by omega)]
  have hcs : currentStrengthO (evalSized sc) [hc1, hc2] board_cards =
      some (get_hand_label (sc [hc1, hc2] (board_cards.take 5))) := by
    unfold currentStrengthO
    rw [if_pos (by simp; omega)]
    unfold evalSized
    rw [if_pos (by constructor <;> simp [List.length_take] <;> omega)]
    rfl
  have hev : evalSized sc [hc1, hc2] board_cards = none := by
    unfold evalSized
    rw [if_neg (by simp; omega)]
  have hrt : runTrialO (evalSized sc) [hc1, hc2] board_cards d = none := by
    simp only [runTrialO, htb, hev]
  have hsl : simLoopO (evalSized sc) [hc1, hc2] board_cards (d :: ds)
      (0, 0) = none := by
    simp only [simLoopO, hrt]
  refine ⟨hcs, htb, hrt, ?_⟩
  rw [calculate_equityO_parsed (evalSized sc) h1 h2 board_strs (d :: ds)
    hc1 hc2 board_cards hp1 hp2 hpb]
  unfold calcResultO
  rw [hcs, hsl]

/-- Witness for the amended C8 at a concrete 6-card board: the first
trial fails at scoring and the whole call crashes. -/
theorem C8_amended_witness :
    runTrialO (evalSized (fun _ _ => 1)) [⟨12, 0⟩, ⟨12, 2⟩]
      [⟨0, 1⟩, ⟨1, 1⟩, ⟨2, 1⟩, ⟨3, 1⟩, ⟨4, 1⟩, ⟨5, 1⟩] standardDeck =
      none ∧
    calculate_equityO (evalSized (fun _ _ => 1)) ['A', 's'] ['A', 'd']
      [['2', 'h'], ['3', 'h'], ['4', 'h'], ['5', 'h'], ['6', 'h'],
        ['7', 'h']] [standardDeck] = none :=
  ⟨(C8_amended_no_board_check (fun _ _ => 1) ['A', 's'] ['A', 'd']
      [['2', 'h'], ['3', 'h'], ['4', 'h'], ['5', 'h'], ['6', 'h'],
        ['7', 'h']] standardDeck [] ⟨12, 0⟩ ⟨12, 2⟩
      [⟨0, 1⟩, ⟨1, 1⟩, ⟨2, 1⟩, ⟨3, 1⟩, ⟨4, 1⟩, ⟨5, 1⟩]
      (by decide) (by decide) (by decide) (by decide)).2.2.1,
    (C8_amended_no_board_check (fun _ _ => 1) ['A', 's'] ['A', 'd']
      [['2', 'h'], ['3', 'h'], ['4', 'h'], ['5', 'h'], ['6', 'h'],
        ['7', 'h']] standardDeck [] ⟨12, 0⟩ ⟨12, 2⟩
      [⟨0, 1⟩, ⟨1, 1⟩, ⟨2, 1⟩, ⟨3, 1⟩, ⟨4, 1⟩, ⟨5, 1⟩]
      (by decide) (by decide) (by decide) (by decide)).2.2.2⟩

/-- `removeCard` yields a sublist of the deck. -/
theorem removeCard_sublist (deck : List PCard) (c : PCard) :
    (removeCard deck c).Sublist deck := by
  induction deck with
  | nil => exact List.Sublist.refl []
  | cons x xs ih =>
    unfold removeCard
    by_cases hx : x = c
    · rw [if_pos hx]; exact List.sublist_cons_self x xs
    · rw [if_neg hx]; exact List.Sublist.cons₂ x ih

/-- `removeKnown` yields a sublist of the deck. -/
theorem removeKnown_sublist (cards : List PCard) : ∀ deck : List PCard,
    (removeKnown deck cards).Sublist deck := by
  induction cards with
  | nil => intro deck; exact List.Sublist.refl deck
  | cons c cs ih =>
    intro deck
    exact (ih (removeCard deck c)).trans (removeCard_sublist deck c)

/-- A duplicate-free deck does not contain `c` after `removeCard deck c`:
the single copy of `c` is gone. -/
theorem not_mem_removeCard_self (deck : List PCard) (c : PCard)
    (hnd : deck.Nodup) : c ∉ removeCard deck c := by
  induction deck with
  | nil => simp [removeCard]
  | cons x xs ih =>
    rcases List.nodup_cons.mp hnd with ⟨hx, hxs⟩
    unfold removeCard
    by_cases hxc : x = c
    · rw [if_pos hxc]
      rw [hxc] at hx
      exact hx
    · rw [if_neg hxc]
      intro hmem
      rcases List.mem_cons.mp hmem with he | hm
      · exact hxc he.symm
      · exact ih hxs hm

/-- After removing the known cards from a duplicate-free deck, no known
card remains in the trial deck. -/
theorem not_mem_removeKnown (cards : List PCard) : ∀ deck : List PCard,
    deck.Nodup → ∀ c ∈ cards, c ∉ removeKnown deck cards := by
  induction cards with
  | nil => intro deck _ c hc; exact absurd hc (List.not_mem_nil c)
  | cons k ks ih =>
    intro deck hnd c hc
    rcases List.mem_cons.mp hc with rfl | hm
    · intro hmem
      have hsub := removeKnown_sublist ks (removeCard deck c)
      exact not_mem_removeCard_self deck c hnd (hsub.subset hmem)
    · exact ih (removeCard deck k)
        (List.Nodup.sublist (removeCard_sublist deck k) hnd) c hm

/-- C9: deck hygiene. (i) Trial i uses exactly the i-th fresh deck order —
`trialResults` is the elementwise map of `runTrial` over the supplied deck
orders, so no trial reuses the deck of another. (ii) The cards dealt in a
trial — the 2 opponent cards followed by the board-completion draw — form
a single without-replacement prefix of the trial deck, taken after the
known cards were removed. (iii) For a duplicate-free deck order the dealt
cards are pairwise distinct, and (iv) none of them is a known hero or
board card: no card is dealt twice within one trial. -/
theorem C9_deck_invariant (ev : Ev) (hero board : List PCard)
    (decks : List (List PCard)) (d : List PCard) (hnd : d.Nodup) :
    (∀ i : Nat, (trialResults ev hero board decks)[i]? =
      (decks[i]?).map (runTrial ev hero board)) ∧
    (trialDeck hero board d).take 2 ++
        ((trialDeck hero board d).drop 2).take (5 - board.length) =
      trialDealt hero board d ∧
    (trialDealt hero board d).Nodup ∧
    (∀ c ∈ trialDealt hero board d, c ∉ hero ++ board) := by
  have hsubdeck : (trialDeck hero board d).Sublist d :=
    removeKnown_sublist (hero ++ board) d
  have hsubdealt : (trialDealt hero board d).Sublist
      (trialDeck hero board d) := List.take_sublist _ _
  refine ⟨fun i => by simp [trialResults, List.getElem?_map], ?_, ?_, ?_⟩
  · exact (List.take_add (trialDeck hero board d) 2 (5 - board.length)).symm
  · exact List.Nodup.sublist (hsubdealt.trans hsubdeck) hnd
  · intro c hc hmem
    exact not_mem_removeKnown (hero ++ board) d hnd c hmem
      (hsubdealt.subset hc)

/-- Witness for C9 on the full 52-card deck: the dealt cards of the trial
are distinct and disjoint from the known cards. -/
theorem C9_witness :
    standardDeck.Nodup ∧
    (trialDealt [⟨12, 1⟩, ⟨12, 2⟩] [] standardDeck).Nodup ∧
    (∀ c ∈ trialDealt [⟨12, 1⟩, ⟨12, 2⟩] [] standardDeck,
      c ∉ [⟨12, 1⟩, ⟨12, 2⟩] ++ ([] : List PCard)) :=
  ⟨by decide,
    (C9_deck_invariant evOne [⟨12, 1⟩, ⟨12, 2⟩] [] [] standardDeck
      (by decide)).2.2⟩

end PokerApp
